import Mathlib

/-!
Shallow embedding of `src/moving_average_demo.py` and the parsing core of
`streamlit_app.py`.  Python floats are modelled as rationals (`ℚ`); Python
exceptions are modelled by `Except PyErr`; `int` arguments are `Int`.
-/

namespace MovingAvg

/-- The Python exceptions the embedded functions can raise:
`FileNotFoundError`, `ValueError`, `ZeroDivisionError`. -/
inductive PyErr where
  | fileNotFound
  | valueError
  | zeroDivisionError
deriving DecidableEq, Repr

/-- A calendar date as carried by `datetime.date` (year, month, day). -/
structure Date where
  year : Int
  month : Int
  day : Int
deriving DecidableEq, Repr

/-- Embeds `calendar.isleap(year)`: `year % 4 == 0 and (year % 100 != 0 or year % 400 == 0)`.
Python `%` on a positive modulus agrees with `Int.emod` (Lean's `%`). -/
def isleap (year : Int) : Bool :=
  year % 4 == 0 && (year % 100 != 0 || year % 400 == 0)

/-- Embeds `calendar.monthrange(year, month)[1]`: the number of days in the month. -/
def monthrange_days (year month : Int) : Int :=
  if month = 2 then (if isleap year then 29 else 28)
  else if month = 4 ∨ month = 6 ∨ month = 9 ∨ month = 11 then 30
  else 31

/-- Embeds `add_months(date, months)` from `moving_average_demo.py`:
Python `//` is floor division (`Int.fdiv`) and `%` is floor-remainder
(`Int.fmod`, in `[0, 12)` here). -/
def add_months (date : Date) (months : Int) : Date :=
  let year := date.year + (date.month - 1 + months).fdiv 12
  let month := (date.month - 1 + months).fmod 12 + 1
  let day := min date.day (monthrange_days year month)
  ⟨year, month, day⟩

/-- The Python slice `l[s:]` for an arbitrary integer `s`:
a negative start counts from the end (clamped at 0), a non-negative start
is clamped at `len(l)` (which `List.drop` already does). -/
def pySliceFrom (l : List ℚ) (s : Int) : List ℚ :=
  if s < 0 then l.drop ((l.length + s).toNat) else l.drop s.toNat

/-- Embeds `moving_average(values, window)` from `moving_average_demo.py`:
raises `ValueError` when `window <= 0`; otherwise, for each index, takes
`values[max(0, idx - window + 1) : idx + 1]` and appends `None` when the
slice is shorter than the window, else `sum(slice) / window`. -/
def moving_average (values : List ℚ) (window : Int) :
    Except PyErr (List (Option ℚ)) :=
  if window ≤ 0 then .error .valueError
  else .ok ((List.range values.length).map (fun (idx : Nat) =>
    let start : Int := max 0 ((idx : Int) - window + 1)
    let window_slice := (values.drop start.toNat).take (idx + 1 - start.toNat)
    if (window_slice.length : Int) < window then none
    else some (window_slice.sum / (window : ℚ))))

/-- The loop of `forecast`: each step takes `history[-window:]`, raises
`ZeroDivisionError` when that slice is empty (`sum(s)/len(s)` with
`len(s) == 0`), and otherwise appends the slice's mean to both the output
and the working history. -/
def forecastGo (window : Int) : List ℚ → Nat → Except PyErr (List ℚ)
  | _, 0 => .ok []
  | history, n + 1 =>
    let window_slice := pySliceFrom history (-window)
    if window_slice.length = 0 then .error .zeroDivisionError
    else
      let m := window_slice.sum / (window_slice.length : ℚ)
      match forecastGo window (history ++ [m]) n with
      | .ok rest => .ok (m :: rest)
      | .error e => .error e

/-- Embeds `forecast(values, window, horizon)` from `moving_average_demo.py`:
returns `[]` when `horizon <= 0`, else runs `horizon` steps of the loop
starting from a working history equal to the input. -/
def forecast (values : List ℚ) (window : Int) (horizon : Int) :
    Except PyErr (List ℚ) :=
  if horizon ≤ 0 then .ok []
  else forecastGo window values horizon.toNat

/-- Embeds `SeriesPoint`: one observation of the series. -/
structure SeriesPoint where
  date : Date
  value : ℚ
deriving DecidableEq, Repr

/-- One CSV field as seen by the parsing loops: `absent` when the field is
missing or blank (both falsy under Python's `not row.get(...)`, so the row is
skipped before any parsing), `malformed` when the field is present but
`dt.date.fromisoformat` / `float` raises `ValueError` on it, and `parsed`
when parsing yields a value. -/
inductive CsvField (α : Type) where
  | absent
  | malformed
  | parsed (val : α)
deriving DecidableEq, Repr

/-- Whether a field is missing or blank, i.e. fails Python's truthiness test. -/
def CsvField.isAbsent : CsvField α → Bool
  | .absent => true
  | _ => false

/-- Whether a field is present but unparseable. -/
def CsvField.isMalformed : CsvField α → Bool
  | .malformed => true
  | _ => false

/-- One CSV record as seen by the loops in `load_series_from_csv` and
`parse_uploaded_csv` after the `row.get` lookups. -/
structure Row where
  date : CsvField Date
  value : CsvField ℚ
deriving DecidableEq, Repr

/-- The skip test `not row.get("date") or not row.get("value")`. -/
def rowSkipped (row : Row) : Bool :=
  row.date.isAbsent || row.value.isAbsent

/-- Whether a row survives the skip test but has a field on which parsing
raises `ValueError`. -/
def rowMalformed (row : Row) : Bool :=
  !rowSkipped row &&
    (row.date.isMalformed || row.value.isMalformed)

/-- Whether any row of the input makes the parsing loop raise `ValueError`. -/
def hasMalformed (rows : List Row) : Bool :=
  rows.any rowMalformed

/-- The valid records of a row list: the rows that are neither skipped nor
unparseable, i.e. those that contribute a `SeriesPoint`. -/
def validRecords (rows : List Row) : List SeriesPoint :=
  rows.filterMap (fun row =>
    match row.date, row.value with
    | .parsed d, .parsed v => some ⟨d, v⟩
    | _, _ => none)

/-- The record-collecting loop shared by both parsers: a row whose date or
value field is missing/blank is skipped; otherwise the fields are parsed
(`dt.date.fromisoformat` / `float`), which raises `ValueError` on a
malformed field and aborts the whole parse; a fully parsed row contributes
a `SeriesPoint` in input order. -/
def parseRows : List Row → Except PyErr (List SeriesPoint)
  | [] => .ok []
  | row :: rest =>
    if rowSkipped row then parseRows rest
    else
      match row.date, row.value with
      | .parsed d, .parsed v =>
        (match parseRows rest with
         | .ok pts => .ok (⟨d, v⟩ :: pts)
         | .error e => .error e)
      | _, _ => .error .valueError

/-- Comparison of `datetime.date` values: lexicographic on (year, month, day). -/
def dateLe (a b : Date) : Bool :=
  decide (a.year < b.year ∨ (a.year = b.year ∧
    (a.month < b.month ∨ (a.month = b.month ∧ a.day ≤ b.day))))

/-- Strict comparison of `datetime.date` values. -/
def dateLt (a b : Date) : Bool :=
  decide (a.year < b.year ∨ (a.year = b.year ∧
    (a.month < b.month ∨ (a.month = b.month ∧ a.day < b.day))))

/-- Embeds `points.sort(key=lambda p: p.date)`: a stable sort ascending by date. -/
def sortPoints (points : List SeriesPoint) : List SeriesPoint :=
  points.mergeSort (fun a b => dateLe a.date b.date)

/-- Embeds `load_series_from_csv(path)` from `moving_average_demo.py`: raises
`FileNotFoundError` when the path does not exist; otherwise runs the
collecting loop (which skips rows with missing/blank fields and raises
`ValueError` on an unparseable field), sorts by date, and raises
`ValueError` when no valid rows remain. The file-system lookup
`path.exists()` is modelled by the `fileExists` flag and the already-read
records by `rows`. -/
def load_series_from_csv (fileExists : Bool) (rows : List Row) :
    Except PyErr (List SeriesPoint) :=
  if !fileExists then .error .fileNotFound
  else
    match parseRows rows with
    | .error e => .error e
    | .ok points =>
      let sorted := sortPoints points
      if sorted = [] then .error .valueError
      else .ok sorted

/-- Embeds `parse_uploaded_csv(buffer)` from `streamlit_app.py`, from the
`csv.DictReader` loop onward (byte decoding abstracted into `rows`):
same loop, same sort, `ValueError` when no valid rows remain. -/
def parse_uploaded_csv (rows : List Row) : Except PyErr (List SeriesPoint) :=
  match parseRows rows with
  | .error e => .error e
  | .ok points =>
    let sorted := sortPoints points
    if sorted = [] then .error .valueError
    else .ok sorted

/-- Embeds `SPARK_CHARS = " .:-=+*#%@"` as its list of characters. -/
def sparkChars : List Char := [' ', '.', ':', '-', '=', '+', '*', '#', '%', '@']

/-- Python's `round` to an integer: round half to even. -/
def pyRound (q : ℚ) : Int :=
  let f := ⌊q⌋
  let r := q - f
  if r < 1/2 then f
  else if 1/2 < r then f + 1
  else if f % 2 = 0 then f else f + 1

/-- Embeds `sparkline(values)` from `moving_average_demo.py`: empty input gives
`""`; a constant input gives `"=" * len(values)`; otherwise each value is
normalized to `[0, 9]` and mapped onto `SPARK_CHARS`. -/
def sparkline (values : List ℚ) : String :=
  match values with
  | [] => ""
  | v :: vs =>
    let v_min := vs.foldl min v
    let v_max := vs.foldl max v
    if v_min = v_max then String.mk (List.replicate (v :: vs).length '=')
    else
      let span := v_max - v_min
      let scale : Int := (sparkChars.length : Int) - 1
      String.mk ((v :: vs).map (fun value =>
        let normalized := pyRound (((value - v_min) / span) * (scale : ℚ))
        sparkChars.getD normalized.toNat ' '))

/-! Supporting lemmas about the Python tail slice `l[-w:]`. -/

theorem pySliceFrom_zero (l : List ℚ) : pySliceFrom l 0 = l := by
  simp [pySliceFrom]

theorem pySliceFrom_neg_ne_nil (l : List ℚ) (w : Int) (hw : 0 ≤ w) (hl : l ≠ []) :
    pySliceFrom l (-w) ≠ [] := by
  rcases eq_or_lt_of_le hw with h0 | hpos
  · rw [← h0]
    simpa using pySliceFrom_zero l ▸ hl
  · have hneg : (-w : Int) < 0 := by omega
    unfold pySliceFrom
    rw [if_pos hneg]
    intro hcontra
    have hlen := congrArg List.length hcontra
    simp only [List.length_drop, List.length_nil] at hlen
    have hlpos : 0 < l.length := List.length_pos.mpr hl
    omega

theorem pySliceFrom_neg_all (l : List ℚ) (w : Int) (hw : 0 < w)
    (hlen : (l.length : Int) ≤ w) : pySliceFrom l (-w) = l := by
  unfold pySliceFrom
  rw [if_pos (by omega : (-w : Int) < 0)]
  have h0 : ((l.length : Int) + -w).toNat = 0 := by omega
  rw [h0, List.drop_zero]

/-- One run of the `forecast` loop succeeds whenever the working history is
non-empty and the window is non-negative, produces exactly `n` values, and
each value is the mean of the tail slice of the history extended with the
previous forecasts. -/
theorem forecastGo_ok (window : Int) (hw : 0 ≤ window) (n : Nat) :
    ∀ history : List ℚ, history ≠ [] →
    ∃ F : List ℚ, forecastGo window history n = .ok F ∧ F.length = n ∧
      ∀ k, k < n →
        F[k]? = some ((pySliceFrom (history ++ F.take k) (-window)).sum /
          ((pySliceFrom (history ++ F.take k) (-window)).length : ℚ)) := by
  induction n with
  | zero =>
    intro history _
    exact ⟨[], rfl, rfl, fun k hk => by omega⟩
  | succ n ih =>
    intro history hhist
    have hne : pySliceFrom history (-window) ≠ [] :=
      pySliceFrom_neg_ne_nil history window hw hhist
    have hlen0 : ¬ (pySliceFrom history (-window)).length = 0 := by
      simpa [List.length_eq_zero] using hne
    obtain ⟨F', h1, h2, h3⟩ :=
      ih (history ++ [(pySliceFrom history (-window)).sum /
        ((pySliceFrom history (-window)).length : ℚ)]) (by simp)
    refine ⟨(pySliceFrom history (-window)).sum /
      ((pySliceFrom history (-window)).length : ℚ) :: F', ?_, by simp [h2], ?_⟩
    · rw [forecastGo]
      simp only [if_neg hlen0, h1]
    · intro k hk
      cases k with
      | zero => simp
      | succ k =>
        have hk' : k < n := by omega
        have hrec := h3 k hk'
        simpa [List.take_succ_cons, List.append_assoc] using hrec

/-- The `forecast` loop never raises `ValueError`: the only error it can
produce is the division by zero on an empty slice. -/
theorem forecastGo_ne_valueError (window : Int) (n : Nat) :
    ∀ history : List ℚ, forecastGo window history n ≠ .error .valueError := by
  induction n with
  | zero => intro history h; simp [forecastGo] at h
  | succ n ih =>
    intro history h
    rw [forecastGo] at h
    split at h
    · simp at h
    · dsimp only at h
      split at h
      · simp at h
      · rename_i e heq
        injection h with h'
        subst h'
        exact ih _ heq

/-- C1 (amended: non-empty input): for every non-empty input sequence, window
size W > 0 and horizon H ≥ 0, the forecaster returns exactly H values computed
iteratively — the k-th output is the mean of the last W elements of the working
history, i.e. of the input followed by the first k forecasts, so forecast k
for k > 0 depends on forecast k-1 — and H = 0 yields the empty sequence. -/
theorem C1_forecast_iterative (values : List ℚ) (window horizon : Int)
    (hw : 0 < window) (hh : 0 ≤ horizon) (hv : values ≠ []) :
    ∃ F : List ℚ, forecast values window horizon = .ok F ∧
      (F.length : Int) = horizon ∧ (horizon = 0 → F = []) ∧
      ∀ k, k < F.length →
        F[k]? = some ((pySliceFrom (values ++ F.take k) (-window)).sum /
          ((pySliceFrom (values ++ F.take k) (-window)).length : ℚ)) := by
  by_cases h0 : horizon ≤ 0
  · refine ⟨[], ?_, by simp only [List.length_nil, Nat.cast_zero]; omega,
      fun _ => rfl, fun k hk => by simp at hk⟩
    unfold forecast
    rw [if_pos h0]
  · obtain ⟨F, h1, h2, h3⟩ := forecastGo_ok window (le_of_lt hw) horizon.toNat values hv
    refine ⟨F, ?_, by omega, fun hzero => absurd hzero (by omega), ?_⟩
    · unfold forecast
      rw [if_neg h0]
      exact h1
    · intro k hk
      exact h3 k (h2 ▸ hk)

/-- C1 counterexample: on the empty input sequence with W = 1 > 0 and
H = 1 ≥ 0, the forecaster does not return a sequence of 1 value — it raises
`ZeroDivisionError`, refuting the claim's "for every input sequence". -/
theorem C1_empty_input_no_output :
    forecast ([] : List ℚ) 1 1 = .error .zeroDivisionError ∧
    ¬ ∃ F : List ℚ, forecast ([] : List ℚ) 1 1 = .ok F := by
  refine ⟨rfl, ?_⟩
  rintro ⟨F, hF⟩
  rw [show forecast ([] : List ℚ) 1 1 = .error .zeroDivisionError from rfl] at hF
  simp at hF

/-- C1 witness: the amended theorem applied at input [10, 20, 30], W = 2,
H = 3. -/
theorem C1_witness :
    ∃ F : List ℚ, forecast [10, 20, 30] 2 3 = .ok F ∧
      (F.length : Int) = 3 ∧ ((3 : Int) = 0 → F = []) ∧
      ∀ k, k < F.length →
        F[k]? = some ((pySliceFrom (([10, 20, 30] : List ℚ) ++ F.take k) (-2)).sum /
          ((pySliceFrom (([10, 20, 30] : List ℚ) ++ F.take k) (-2)).length : ℚ)) :=
  C1_forecast_iterative [10, 20, 30] 2 3 (by norm_num) (by norm_num) (by simp)

/-- C4 (amended: non-empty input): for every non-empty input sequence — in
particular one shorter than the window — W > 0 and H ≥ 0, the forecaster
raises no error, and when the input is shorter than W the first forecast is
the mean of all available elements. -/
theorem C4_forecast_total_on_nonempty (values : List ℚ) (window horizon : Int)
    (hv : values ≠ []) (hw : 0 < window) (hh : 0 ≤ horizon) :
    ∃ F : List ℚ, forecast values window horizon = .ok F ∧
      ((values.length : Int) < window → 0 < horizon →
        F[0]? = some (values.sum / (values.length : ℚ))) := by
  by_cases h0 : horizon ≤ 0
  · refine ⟨[], ?_, fun _ hcon => absurd hcon (by omega)⟩
    unfold forecast
    rw [if_pos h0]
  · obtain ⟨F, h1, h2, h3⟩ := forecastGo_ok window (le_of_lt hw) horizon.toNat values hv
    refine ⟨F, ?_, ?_⟩
    · unfold forecast
      rw [if_neg h0]
      exact h1
    · intro hshort _
      have hk0 : 0 < horizon.toNat := by omega
      have hrec := h3 0 hk0
      rw [List.take_zero, List.append_nil,
        pySliceFrom_neg_all values window hw (le_of_lt hshort)] at hrec
      exact hrec

/-- C4 counterexample: on the empty input sequence with W = 2 > 0 and H = 1,
the forecaster does crash — `sum([])/len([])` raises `ZeroDivisionError` —
refuting the claim's "including the empty sequence". -/
theorem C4_empty_input_crashes :
    forecast ([] : List ℚ) 2 1 = .error .zeroDivisionError ∧
    ¬ ∃ F : List ℚ, forecast ([] : List ℚ) 2 1 = .ok F := by
  refine ⟨rfl, ?_⟩
  rintro ⟨F, hF⟩
  rw [show forecast ([] : List ℚ) 2 1 = .error .zeroDivisionError from rfl] at hF
  simp at hF

/-- C4 witness: the amended theorem applied at input [5] (length 1 < W = 3)
with H = 2. -/
theorem C4_witness :
    ∃ F : List ℚ, forecast [5] 3 2 = .ok F ∧
      ((List.length ([5] : List ℚ) : Int) < 3 → (0 : Int) < 2 →
        F[0]? = some (List.sum ([5] : List ℚ) / (List.length ([5] : List ℚ) : ℚ))) :=
  C4_forecast_total_on_nonempty [5] 3 2 (by simp) (by norm_num) (by norm_num)

/-- C6: on the input [10, 20, 30] with W = 2 and H = 3 the forecaster returns
exactly [25.0, 27.5, 26.25]. -/
theorem C6_forecast_example :
    forecast [10, 20, 30] 2 3 = .ok [25.0, 27.5, 26.25] := by
  norm_num [forecast, forecastGo, pySliceFrom,
    show Int.toNat 2 = 2 from rfl, show Int.toNat 3 = 3 from rfl,
    show Int.toNat 4 = 4 from rfl]

/-- C10: the forecaster performs no window-size validation: for W ≤ 0, a
non-empty input and H > 0 it never raises `ValueError` (the invalid-argument
error), and for W = 0 it succeeds with each step appending the mean of the
entire working history (Python `history[-0:]` is the whole list). -/
theorem C10_forecast_no_window_validation (values : List ℚ) (window horizon : Int)
    (hv : values ≠ []) (hw : window ≤ 0) (hh : 0 < horizon) :
    forecast values window horizon ≠ .error .valueError ∧
    (window = 0 →
      ∃ F : List ℚ, forecast values window horizon = .ok F ∧
        (F.length : Int) = horizon ∧
        ∀ k, k < F.length →
          F[k]? = some ((values ++ F.take k).sum /
            ((values ++ F.take k).length : ℚ))) := by
  constructor
  · unfold forecast
    split
    · simp
    · exact forecastGo_ne_valueError window horizon.toNat values
  · intro hw0
    subst hw0
    obtain ⟨F, h1, h2, h3⟩ := forecastGo_ok 0 le_rfl horizon.toNat values hv
    refine ⟨F, ?_, by omega, ?_⟩
    · unfold forecast
      rw [if_neg (by omega)]
      exact h1
    · intro k hk
      have hrec := h3 k (h2 ▸ hk)
      rw [show (-(0 : Int)) = 0 from rfl, pySliceFrom_zero] at hrec
      exact hrec

/-- C10 witness: the theorem applied at input [1, 2], W = 0, H = 2. -/
theorem C10_witness :
    forecast [1, 2] 0 2 ≠ .error .valueError ∧
    ((0 : Int) = 0 →
      ∃ F : List ℚ, forecast [1, 2] 0 2 = .ok F ∧ (F.length : Int) = 2 ∧
        ∀ k, k < F.length →
          F[k]? = some ((([1, 2] : List ℚ) ++ F.take k).sum /
            (((([1, 2] : List ℚ) ++ F.take k).length : ℚ)))) :=
  C10_forecast_no_window_validation [1, 2] 0 2 (by simp) (by norm_num) (by norm_num)

/-- C3: the date stepper computes year and month by floor division and floor
remainder of the zero-based month count by 12, clamps the day to the length of
the target month, and in particular steps 2021-01-31 by one month to
2021-02-28 and 2020-01-31 by one month to 2020-02-29. -/
theorem C3_add_months_spec :
    (∀ (d : Date) (m : Int), add_months d m =
      ⟨d.year + (d.month - 1 + m).fdiv 12,
       (d.month - 1 + m).fmod 12 + 1,
       min d.day (monthrange_days (d.year + (d.month - 1 + m).fdiv 12)
         ((d.month - 1 + m).fmod 12 + 1))⟩) ∧
    add_months ⟨2021, 1, 31⟩ 1 = ⟨2021, 2, 28⟩ ∧
    add_months ⟨2020, 1, 31⟩ 1 = ⟨2020, 2, 29⟩ :=
  ⟨fun _ _ => rfl, by decide, by decide⟩

/-- C5: for every window size W ≤ 0 the smoother raises the invalid-argument
error (`ValueError`) before producing any output, whatever the input. -/
theorem C5_moving_average_invalid_window (values : List ℚ) (window : Int)
    (hw : window ≤ 0) : moving_average values window = .error .valueError := by
  unfold moving_average
  rw [if_pos hw]

/-- C5 witness: the theorem applied at input [1, 2] with W = 0. -/
theorem C5_witness : moving_average [1, 2] 0 = .error .valueError :=
  C5_moving_average_invalid_window [1, 2] 0 (by norm_num)

/-- C2: for every input of length N and window W > 0 the smoother returns
exactly N elements; element i is the mean of the W-element trailing slice
`values[max(0, i-W+1) : i+1]` exactly when that slice has W elements, i.e.
when i ≥ W−1, and is undefined (`none`) otherwise. -/
theorem C2_moving_average_spec (values : List ℚ) (window : Int)
    (hw : 0 < window) :
    ∃ out : List (Option ℚ), moving_average values window = .ok out ∧
      out.length = values.length ∧
      ∀ i, i < out.length →
        out[i]? = some (if window ≤ (i : Int) + 1
          then some (((values.drop (i + 1 - window.toNat)).take window.toNat).sum /
            (window : ℚ))
          else none) := by
  have hcond : ¬ window ≤ 0 := by omega
  refine ⟨_, by unfold moving_average; rw [if_neg hcond], by simp, ?_⟩
  intro i hi
  simp only [List.length_map, List.length_range] at hi
  rw [List.getElem?_map, List.getElem?_range hi]
  simp only [Option.map_some']
  congr 1
  dsimp only
  by_cases hcase : window ≤ (i : Int) + 1
  · have hstartNat : (max 0 ((i : Int) - window + 1)).toNat = i + 1 - window.toNat := by
      omega
    rw [hstartNat]
    have htake : i + 1 - (i + 1 - window.toNat) = window.toNat := by omega
    rw [htake]
    have hlen : ((values.drop (i + 1 - window.toNat)).take window.toNat).length
        = min window.toNat (values.length - (i + 1 - window.toNat)) := by
      simp [List.length_take, List.length_drop]
    rw [if_neg (by rw [hlen]; push_cast; omega), if_pos hcase]
  · have hstartNat : (max 0 ((i : Int) - window + 1)).toNat = 0 := by omega
    rw [hstartNat]
    simp only [List.drop_zero, Nat.sub_zero]
    have hlen : (values.take (i + 1)).length = i + 1 := by
      simp only [List.length_take]
      omega
    rw [if_pos (by rw [hlen]; push_cast; omega), if_neg hcase]

/-- C2 witness: the theorem applied at input [1, 2, 3] with W = 2. -/
theorem C2_witness :
    ∃ out : List (Option ℚ), moving_average [1, 2, 3] 2 = .ok out ∧
      out.length = List.length ([1, 2, 3] : List ℚ) ∧
      ∀ i, i < out.length →
        out[i]? = some (if (2 : Int) ≤ (i : Int) + 1
          then some (((([1, 2, 3] : List ℚ).drop (i + 1 - (2 : Int).toNat)).take
            ((2 : Int).toNat)).sum / ((2 : Int) : ℚ))
          else none) :=
  C2_moving_average_spec [1, 2, 3] 2 (by norm_num)

/-! Supporting lemmas about the date order used by the sort. -/

theorem dateLe_trans (a b c : Date) (h1 : dateLe a b) (h2 : dateLe b c) :
    dateLe a c := by
  simp only [dateLe, decide_eq_true_eq] at h1 h2 ⊢
  omega

theorem dateLe_total (a b : Date) : dateLe a b || dateLe b a := by
  simp only [dateLe, Bool.or_eq_true, decide_eq_true_eq]
  omega

theorem dateLt_of_dateLe_of_ne (a b : Date) (hle : dateLe a b) (hne : a ≠ b) :
    dateLt a b := by
  cases a with
  | mk ay am ad =>
    cases b with
    | mk by' bm bd =>
      simp only [dateLe, dateLt, decide_eq_true_eq] at hle ⊢
      simp only [ne_eq, Date.mk.injEq, not_and] at hne
      by_cases hy : ay = by'
      · by_cases hm : am = bm
        · have : ¬ ad = bd := fun hd => hne hy hm hd
          omega
        · omega
      · omega

theorem dateLt_asymm (a b : Date) (h1 : dateLt a b) (h2 : dateLt b a) : False := by
  simp only [dateLt, decide_eq_true_eq] at h1 h2
  omega

/-- Sorting is insensitive to the presentation order of the records when the
dates are pairwise distinct: any two permutations of the same records sort to
the same list. -/
theorem sortPoints_eq_of_perm (l₁ l₂ : List SeriesPoint) (hp : l₁.Perm l₂)
    (hnd : l₁.Pairwise (fun a b => a.date ≠ b.date)) :
    sortPoints l₁ = sortPoints l₂ := by
  have hsymm : ∀ {x y : SeriesPoint}, x.date ≠ y.date → y.date ≠ x.date :=
    fun h => h.symm
  have hperm₁ : (sortPoints l₁).Perm l₁ := List.mergeSort_perm l₁ _
  have hperm₂ : (sortPoints l₂).Perm l₂ := List.mergeSort_perm l₂ _
  have hs₁ : (sortPoints l₁).Pairwise (fun a b => dateLe a.date b.date = true) :=
    List.sorted_mergeSort (fun a b c => dateLe_trans a.date b.date c.date)
      (fun a b => dateLe_total a.date b.date) l₁
  have hs₂ : (sortPoints l₂).Pairwise (fun a b => dateLe a.date b.date = true) :=
    List.sorted_mergeSort (fun a b c => dateLe_trans a.date b.date c.date)
      (fun a b => dateLe_total a.date b.date) l₂
  have hnd₁ : (sortPoints l₁).Pairwise (fun a b => a.date ≠ b.date) :=
    (hperm₁.pairwise_iff hsymm).mpr hnd
  have hnd₂ : (sortPoints l₂).Pairwise (fun a b => a.date ≠ b.date) :=
    (hperm₂.pairwise_iff hsymm).mpr ((hp.pairwise_iff hsymm).mp hnd)
  have hlt₁ : (sortPoints l₁).Pairwise (fun a b => dateLt a.date b.date = true) :=
    (hs₁.and hnd₁).imp (fun h => dateLt_of_dateLe_of_ne _ _ h.1 h.2)
  have hlt₂ : (sortPoints l₂).Pairwise (fun a b => dateLt a.date b.date = true) :=
    (hs₂.and hnd₂).imp (fun h => dateLt_of_dateLe_of_ne _ _ h.1 h.2)
  haveI : IsAntisymm SeriesPoint (fun a b => dateLt a.date b.date = true) :=
    ⟨fun a b h1 h2 => (dateLt_asymm a.date b.date h1 h2).elim⟩
  exact List.eq_of_perm_of_sorted (hperm₁.trans (hp.trans hperm₂.symm)) hlt₁ hlt₂

theorem hasMalformed_cons (row : Row) (rest : List Row) :
    hasMalformed (row :: rest) = (rowMalformed row || hasMalformed rest) := by
  simp [hasMalformed, List.any_cons]

/-- The collecting loop in one equation: it raises `ValueError` exactly when
some surviving row has an unparseable field, and otherwise returns the valid
records in input order. -/
theorem parseRows_spec (rows : List Row) :
    parseRows rows = if hasMalformed rows then .error .valueError
      else .ok (validRecords rows) := by
  induction rows with
  | nil => rfl
  | cons row rest ih =>
    rw [parseRows]
    rcases row with ⟨fd, fv⟩
    by_cases hskip : rowSkipped ⟨fd, fv⟩ = true
    · have hm : rowMalformed ⟨fd, fv⟩ = false := by simp [rowMalformed, hskip]
      have hvr : validRecords (⟨fd, fv⟩ :: rest) = validRecords rest := by
        cases fd <;> cases fv <;>
          simp_all [validRecords, List.filterMap_cons, rowSkipped, CsvField.isAbsent]
      rw [if_pos hskip, ih, hasMalformed_cons, hm, hvr]
      simp
    · rw [if_neg hskip]
      cases fd with
      | parsed d =>
        cases fv with
        | parsed v =>
          have hm : rowMalformed ⟨.parsed d, .parsed v⟩ = false := by
            simp [rowMalformed, rowSkipped, CsvField.isAbsent, CsvField.isMalformed]
          have hvr : validRecords (⟨.parsed d, .parsed v⟩ :: rest) =
              ⟨d, v⟩ :: validRecords rest := by
            simp [validRecords, List.filterMap_cons]
          rw [ih, hasMalformed_cons, hm, hvr]
          by_cases hrest : hasMalformed rest = true
          · rw [if_pos hrest, if_pos (by simp [hrest])]
          · rw [if_neg hrest, if_neg (by simpa using hrest)]
        | absent => exact absurd (by simp [rowSkipped, CsvField.isAbsent]) hskip
        | malformed =>
          have hm : rowMalformed ⟨.parsed d, .malformed⟩ = true := by
            simp [rowMalformed, rowSkipped, CsvField.isAbsent, CsvField.isMalformed]
          rw [hasMalformed_cons, hm]
          simp
      | absent => exact absurd (by simp [rowSkipped, CsvField.isAbsent]) hskip
      | malformed =>
        cases fv with
        | absent => exact absurd (by simp [rowSkipped, CsvField.isAbsent]) hskip
        | parsed v =>
          have hm : rowMalformed ⟨.malformed, .parsed v⟩ = true := by
            simp [rowMalformed, rowSkipped, CsvField.isAbsent, CsvField.isMalformed]
          rw [hasMalformed_cons, hm]
          simp
        | malformed =>
          have hm : rowMalformed ⟨.malformed, .malformed⟩ = true := by
            simp [rowMalformed, rowSkipped, CsvField.isAbsent, CsvField.isMalformed]
          rw [hasMalformed_cons, hm]
          simp

/-- C7 counterexample: a CSV holding one fully valid record and one record
whose value field is present but unparseable fails with the data-validation
error (`ValueError` from `float`) even though one valid record remains,
refuting the claim's "fails ... if and only if zero valid records remain". -/
theorem C7_unparseable_not_iff :
    load_series_from_csv true
        [⟨.parsed ⟨2021, 1, 1⟩, .parsed 10⟩, ⟨.parsed ⟨2021, 2, 1⟩, .malformed⟩] =
      .error .valueError ∧
    validRecords
        [⟨.parsed ⟨2021, 1, 1⟩, .parsed 10⟩, ⟨.parsed ⟨2021, 2, 1⟩, .malformed⟩] =
      [⟨⟨2021, 1, 1⟩, 10⟩] := by
  constructor
  · rfl
  · rfl

/-- C7 (amended): the CSV loader skips every record with a missing/blank date
or value field and raises the distinct `FileNotFoundError` for a missing
file; on an existing file it fails with a data-validation error
(`ValueError`) exactly when some surviving record has an unparseable field
or zero valid records remain — otherwise it succeeds with a non-empty output
that is a permutation of the valid records sorted ascending by date, never
an empty-but-successful series. -/
theorem C7_csv_error_taxonomy (rows : List Row) (r : Row) :
    load_series_from_csv false rows = .error .fileNotFound ∧
    PyErr.fileNotFound ≠ PyErr.valueError ∧
    (parseRows (r :: rows) = if rowSkipped r then parseRows rows
      else match r.date, r.value with
        | .parsed d, .parsed v =>
          (match parseRows rows with
           | .ok pts => .ok (⟨d, v⟩ :: pts)
           | .error e => .error e)
        | _, _ => .error .valueError) ∧
    (match load_series_from_csv true rows with
     | .error e => e = .valueError ∧
         (hasMalformed rows = true ∨ validRecords rows = [])
     | .ok pts => hasMalformed rows = false ∧ pts ≠ [] ∧
         pts.Perm (validRecords rows) ∧
         pts.Pairwise (fun a b => dateLe a.date b.date = true)) := by
  refine ⟨rfl, by simp, by rw [parseRows], ?_⟩
  unfold load_series_from_csv
  rw [if_neg (by simp), parseRows_spec]
  by_cases hmal : hasMalformed rows = true
  · rw [if_pos hmal]
    exact ⟨rfl, Or.inl hmal⟩
  · simp only [Bool.not_eq_true] at hmal
    rw [hmal, if_neg (by simp)]
    dsimp only
    by_cases hemp : sortPoints (validRecords rows) = []
    · rw [if_pos hemp]
      refine ⟨rfl, Or.inr ?_⟩
      have hlen := congrArg List.length hemp
      simp only [sortPoints, List.length_mergeSort, List.length_nil] at hlen
      exact List.length_eq_zero.mp hlen
    · rw [if_neg hemp]
      exact ⟨rfl, hemp, List.mergeSort_perm _ _,
        List.sorted_mergeSort (fun a b c => dateLe_trans a.date b.date c.date)
          (fun a b => dateLe_total a.date b.date) _⟩

/-- C8: parsing is order-insensitive for record sets with pairwise-distinct
dates: both the CSV loader and the upload parser give the same result on a
record list and on its reversal, so ascending and descending presentations
parse identically. -/
theorem C8_parse_order_insensitive (rows : List Row)
    (hnd : (validRecords rows).Pairwise (fun a b => a.date ≠ b.date)) :
    load_series_from_csv true rows = load_series_from_csv true rows.reverse ∧
    parse_uploaded_csv rows = parse_uploaded_csv rows.reverse := by
  have hrev : validRecords rows.reverse = (validRecords rows).reverse := by
    simp [validRecords, List.filterMap_reverse]
  have hmal : hasMalformed rows.reverse = hasMalformed rows := by
    simp [hasMalformed]
  have hperm : (validRecords rows).Perm (validRecords rows.reverse) := by
    rw [hrev]
    exact (List.reverse_perm _).symm
  have hsort : sortPoints (validRecords rows) = sortPoints (validRecords rows.reverse) :=
    sortPoints_eq_of_perm _ _ hperm hnd
  by_cases hm : hasMalformed rows = true
  · have h1 : parseRows rows = .error .valueError := by
      rw [parseRows_spec, if_pos hm]
    have h2 : parseRows rows.reverse = .error .valueError := by
      rw [parseRows_spec, hmal, if_pos hm]
    constructor
    · simp only [load_series_from_csv, h1, h2]
    · simp only [parse_uploaded_csv, h1, h2]
  · simp only [Bool.not_eq_true] at hm
    have h1 : parseRows rows = .ok (validRecords rows) := by
      rw [parseRows_spec, hm]
      simp
    have h2 : parseRows rows.reverse = .ok (validRecords rows.reverse) := by
      rw [parseRows_spec, hmal, hm]
      simp
    constructor
    · simp only [load_series_from_csv, h1, h2, hsort]
    · simp only [parse_uploaded_csv, h1, h2, hsort]

/-- C8 witness: the theorem applied to two records with distinct dates. -/
theorem C8_witness :
    load_series_from_csv true
        [⟨.parsed ⟨2021, 1, 1⟩, .parsed 10⟩, ⟨.parsed ⟨2021, 2, 1⟩, .parsed 20⟩] =
      load_series_from_csv true
        ([⟨.parsed ⟨2021, 1, 1⟩, .parsed 10⟩,
          ⟨.parsed ⟨2021, 2, 1⟩, .parsed 20⟩] : List Row).reverse ∧
    parse_uploaded_csv
        [⟨.parsed ⟨2021, 1, 1⟩, .parsed 10⟩, ⟨.parsed ⟨2021, 2, 1⟩, .parsed 20⟩] =
      parse_uploaded_csv
        ([⟨.parsed ⟨2021, 1, 1⟩, .parsed 10⟩,
          ⟨.parsed ⟨2021, 2, 1⟩, .parsed 20⟩] : List Row).reverse :=
  C8_parse_order_insensitive
    [⟨.parsed ⟨2021, 1, 1⟩, .parsed 10⟩, ⟨.parsed ⟨2021, 2, 1⟩, .parsed 20⟩]
    (by simp [validRecords, List.filterMap_cons])

theorem foldl_min_replicate (m : Nat) (v : ℚ) :
    (List.replicate m v).foldl min v = v := by
  induction m with
  | zero => rfl
  | succ m ih => simpa [List.replicate_succ, min_self] using ih

theorem foldl_max_replicate (m : Nat) (v : ℚ) :
    (List.replicate m v).foldl max v = v := by
  induction m with
  | zero => rfl
  | succ m ih => simpa [List.replicate_succ, max_self] using ih

/-- C9: on a non-empty constant sequence the sparkline takes the degenerate
branch — no division by the zero span happens — and returns one character per
input element, every one of them the mid-ramp character of the 10-character
ramp (index 4 of `SPARK_CHARS`, the character returned by `"=" * len`). -/
theorem C9_sparkline_constant (n : Nat) (v : ℚ) (hn : 0 < n) :
    sparkline (List.replicate n v) =
      String.mk (List.replicate n (sparkChars.getD 4 ' ')) ∧
    (sparkline (List.replicate n v)).length = n ∧
    sparkChars.length = 10 := by
  obtain ⟨m, rfl⟩ : ∃ m, n = m + 1 := ⟨n - 1, by omega⟩
  have hmain : sparkline (List.replicate (m + 1) v) =
      String.mk (List.replicate (m + 1) '=') := by
    rw [List.replicate_succ]
    simp only [sparkline]
    rw [foldl_min_replicate, foldl_max_replicate, if_pos rfl]
    simp [List.length_replicate]
  refine ⟨?_, ?_, rfl⟩
  · rw [hmain]
    rfl
  · rw [hmain]
    simp [String.length]

/-- C9 witness: the theorem applied to the constant sequence [5, 5, 5]. -/
theorem C9_witness :
    sparkline (List.replicate 3 (5 : ℚ)) =
      String.mk (List.replicate 3 (sparkChars.getD 4 ' ')) ∧
    (sparkline (List.replicate 3 (5 : ℚ))).length = 3 ∧
    sparkChars.length = 10 :=
  C9_sparkline_constant 3 5 (by norm_num)

end MovingAvg
